import Mathlib

/-!
Shallow embedding of `tools/cdk-release/lib/lifecycles/changelog.ts` from the
aws-cdk repository, together with proofs about its behaviour.

The module under study orchestrates changelog generation: it partitions commits
between stable and unstable (experimental) packages, locates the split point in
an existing changelog file, invokes an opaque rendering engine, and merges the
rendered text with the preserved old content.

Modelling conventions:
* The filesystem is an explicit association list from paths to file contents,
  threaded through every operation; a read returns the most recent write.
* The third-party rendering pipeline (`conventional-changelog-writer` fed by a
  commit stream) is an opaque parameter `Renderer`: it receives the render
  context built by `changelog`, the `finalizeContext` hook, and the commit
  list, and either produces the rendered text or signals an error (modelling
  the error event of the stream).
* JavaScript strings are modelled as Lean `String`s; the test inputs used in
  the concrete theorems are ASCII, where JS UTF-16 indices and Lean character
  indices agree.
* The asynchronous `forEach` over unstable packages in the `separate`
  treatment is modelled sequentially, in package order, with the top-level
  stable changelog rendered last; this is the deterministic FIFO completion
  order of the event loop. A rejected per-package render is an unhandled
  rejection in the source, so its result is dropped from the accumulator.
-/

/-- A conventional commit. Modelled from the spec: commit parsing lives in
`conventional-commits.ts`, outside the file under study; the spec says a commit
record exposes enough metadata to associate it with zero or more package
names. We keep that association (`packages`) and an opaque payload. -/
structure ConventionalCommit where
  subject : String
  packages : List String
  deriving Repr, DecidableEq

/-- One release unit: `{simplifiedName, location, unstable}`. -/
structure PackageInfo where
  simplifiedName : String
  location : String
  unstable : Bool
  deriving Repr, DecidableEq

/-- A version pair: the stable version and, optionally, the alpha version. -/
structure Versions where
  stableVersion : String
  alphaVersion : Option String := none
  deriving Repr, DecidableEq

/-- Options accepted by `changelog` and `writeChangelogs`. The
`experimentalChangesTreatment` enum is a string-valued enum at runtime
(declared in `types.ts`, outside the file under study), so it is modelled as
an optional `String`; `skip?.changelog` is flattened to one Boolean. -/
structure ChangelogOptions where
  skipChangelog : Bool := false
  changelogFile : String
  dryRun : Bool := false
  experimentalChangesTreatment : Option String := none
  changeLogHeader : String := ""
  includeDateInChangelog : Option Bool := none
  deriving Repr, DecidableEq

/-- The output unit: one changelog file produced. -/
structure ChangelogResult where
  filePath : String
  fileContents : String
  deriving Repr, DecidableEq

/-- Options of the external commit filter. -/
structure FilterOptions where
  includePackages : Option (List String) := none
  excludePackages : Option (List String) := none
  deriving Repr, DecidableEq

/-- Modelled from the spec: `filterCommits` lives in
`conventional-commits.ts`, outside the file under study. Per the spec, with
`excludePackages` it excludes every commit associated only with excluded
packages and keeps all others (including commits associated with no package);
with `includePackages` it keeps the commits associated with an included
package. -/
def filterCommits (commits : List ConventionalCommit) (opts : FilterOptions) :
    List ConventionalCommit :=
  commits.filter fun c =>
    (match opts.includePackages with
     | none => true
     | some incl => c.packages.any fun p => incl.contains p) &&
    (match opts.excludePackages with
     | none => true
     | some excl => c.packages.isEmpty || c.packages.any fun p => !excl.contains p)

/-- The filesystem: an association list from paths to contents. A read
returns the most recently written entry. -/
abbrev FileSystem := List (String × String)

/-- Read a file: the most recent write to the path, if any. -/
def readFs (fs : FileSystem) (p : String) : Option String :=
  (fs.find? fun e => e.1 = p).map fun e => e.2

/-- Raw write to the filesystem map. -/
def writeFs (fs : FileSystem) (p c : String) : FileSystem :=
  (p, c) :: fs

/-- Modelled from the spec: `writeFile` from `private/files.ts`, outside the
file under study, performs no write in dry-run mode and otherwise writes the
content to the path. -/
def writeFile (args : ChangelogOptions) (fs : FileSystem) (p c : String) :
    FileSystem :=
  if args.dryRun then fs else writeFs fs p c

/-- Model of the node `path.join` for the plain relative segments used here. -/
def pathJoin (a b : String) : String := a ++ "/" ++ b

/-! ### The `START_OF_LAST_RELEASE_PATTERN` regular expression

Source line 13: the pattern `(^#+ \[?[0-9]+\.[0-9]+\.[0-9]+|<a name=)` with the
multiline flag, used through `String.prototype.search`, which returns the index
of the first match. The first alternative must sit at a line start (string
start or right after a line terminator); the second may occur anywhere. -/

/-- JavaScript line terminators recognised by the multiline anchor. -/
def isLineTerminator (c : Char) : Bool :=
  c == '\n' || c == '\r' || c == '\u2028' || c == '\u2029'

/-- Consume a maximal nonempty run of characters satisfying `p`; `none` when
the first character fails `p` or the list is empty. This is what a greedy
`x+` does when the following regex atom cannot match an `x`. -/
def dropRun1 (p : Char → Bool) : List Char → Option (List Char)
  | [] => none
  | c :: rest => if p c then some (rest.dropWhile p) else none

/-- Match `[0-9]+\.[0-9]+\.[0-9]+` at the head of the list. -/
def matchSemverAt (cs : List Char) : Bool :=
  match dropRun1 Char.isDigit cs with
  | some ('.' :: cs1) =>
    match dropRun1 Char.isDigit cs1 with
    | some ('.' :: cs2) => (dropRun1 Char.isDigit cs2).isSome
    | _ => false
  | _ => false

/-- Match `#+ \[?[0-9]+\.[0-9]+\.[0-9]+` at the head of the list. -/
def matchHeadingAt (cs : List Char) : Bool :=
  match dropRun1 (fun c => c == '#') cs with
  | some (' ' :: cs1) =>
    match cs1 with
    | '[' :: cs2 => matchSemverAt cs2
    | _ => matchSemverAt cs1
  | _ => false

/-- Match the literal `<a name=` at the head of the list. -/
def matchAnchorAt (cs : List Char) : Bool :=
  List.isPrefixOf "<a name=".data cs

/-- The pattern matches at the head of `cs`, where `lineStart` says whether
this position is a line start. -/
def matchesAt (lineStart : Bool) (cs : List Char) : Bool :=
  (lineStart && matchHeadingAt cs) || matchAnchorAt cs

/-- Scan for the first match, threading the line-start flag; `i` is the index
of the head of the remaining list in the original string. -/
def searchFrom (lineStart : Bool) (i : Nat) : List Char → Option Nat
  | [] => none
  | c :: rest =>
    if matchesAt lineStart (c :: rest) then some i
    else searchFrom (isLineTerminator c) (i + 1) rest

/-- Search for `START_OF_LAST_RELEASE_PATTERN` as `String.prototype.search`
does: the index of the first match, `none` standing for -1. -/
def searchPattern (cs : List Char) : Option Nat :=
  searchFrom true 0 cs

/-- Position `j` of `cs` is a line start: it is 0 or follows a terminator. -/
def lineStartAt (cs : List Char) (j : Nat) : Bool :=
  j == 0 ||
    (match cs[j - 1]? with
     | some c => isLineTerminator c
     | none => false)

/-- The pattern matches at position `j` of `cs`. -/
def matchesAtPos (cs : List Char) (j : Nat) : Bool :=
  matchesAt (lineStartAt cs j) (cs.drop j)

/-- Source lines 88-92: the old content kept from an existing changelog - the
suffix from the first pattern match, or the whole content when there is no
match. -/
def oldContentFrom (cs : List Char) : List Char :=
  match searchPattern cs with
  | some i => cs.drop i
  | none => cs

/-- The function `oldContentFrom`, lifted to `String`. -/
def oldContentOfStr (s : String) : String :=
  ⟨oldContentFrom s.data⟩

/-- Source line 163: `.replace(/\n+$/, '\n')` - collapse a trailing run of
newlines to a single newline; a string not ending in a newline is unchanged. -/
def collapseTrailingNewlines (s : String) : String :=
  if s.data.reverse.head? = some '\n' then
    ⟨('\n' :: s.data.reverse.dropWhile fun c => c == '\n').reverse⟩
  else s

/-- Number of newline characters at the end of a string. -/
def trailingNewlineCount (s : String) : Nat :=
  (s.data.reverse.takeWhile fun c => c == '\n').length

/-! ### The render context and the `finalizeContext` hook -/

/-- One note group handed to `finalizeContext`; the source types the argument
of the hook as a record holding optional note groups, each with a title. -/
structure NoteGroup where
  title : String
  deriving Repr, DecidableEq

/-- The writer context seen by the `finalizeContext` hook: optional note
groups and an optional date. -/
structure WriterContext where
  noteGroups : Option (List NoteGroup) := none
  date : Option String := none
  deriving Repr, DecidableEq

/-- Source lines 133-148: the `finalizeContext` writer option. Every note
group titled `BREAKING CHANGES` is retitled
`BREAKING CHANGES TO EXPERIMENTAL FEATURES`; the date is cleared exactly when
`includeDateInChangelog` is the value `false` (the source compares with
strict equality, so an absent option leaves the date alone). -/
def finalizeContext (args : ChangelogOptions) (ctx : WriterContext) :
    WriterContext :=
  let ctx1 : WriterContext :=
    { ctx with
      noteGroups := ctx.noteGroups.map fun gs =>
        gs.map fun ng =>
          if ng.title = "BREAKING CHANGES" then
            { ng with title := "BREAKING CHANGES TO EXPERIMENTAL FEATURES" }
          else ng }
  if args.includeDateInChangelog = some false then { ctx1 with date := none }
  else ctx1

/-- Source lines 109-124: the render context handed to the writer. -/
structure RenderContext where
  issue : String := "issues"
  commit : String := "commit"
  version : String
  host : String := "https://github.com"
  owner : String := "aws"
  repository : String := "aws-cdk"
  repoUrl : String := "https://github.com/aws/aws-cdk"
  linkCompare : Bool := true
  previousTag : String
  currentTag : String
  isPatch : Bool := false
  deriving Repr, DecidableEq

/-- Build the render context exactly as `changelog` does. -/
def mkRenderContext (currentVersion newVersion : String) : RenderContext :=
  { version := newVersion
    previousTag := "v" ++ currentVersion
    currentTag := "v" ++ newVersion }

/-- The opaque rendering pipeline: preset loading, the commit stream and
`conventionalChangelogWriter` are third-party code, abstracted as a function
from the render context, the `finalizeContext` hook and the commit list to
either the rendered text or a stream error. -/
abbrev Renderer :=
  RenderContext → (WriterContext → WriterContext) → List ConventionalCommit →
    Except String String

/-- Errors escaping `writeChangelogs`: an explicitly thrown message or a
propagated renderer error. -/
inductive CdkError where
  | thrown (msg : String)
  | renderError (e : String)
  deriving Repr, DecidableEq

/-! ### The operations of `changelog.ts` -/

/-- Source lines 170-175: create the changelog file holding a single newline
when it does not exist (the write itself is skipped in dry-run mode by
`writeFile`). -/
def createChangelogIfMissing (args : ChangelogOptions) (fs : FileSystem) :
    FileSystem :=
  if (readFs fs args.changelogFile).isSome then fs
  else writeFile args fs args.changelogFile "\n"

/-- Source lines 81-168: `changelog`. Ensures the file exists, splits the
existing content at the first `START_OF_LAST_RELEASE_PATTERN` match (the
content is treated as empty in dry-run mode), renders the commits, and on
success either merely resolves (dry-run) or writes
`changeLogHeader + "\n" + (content + oldContent)` with the trailing newline
run collapsed; it always resolves with the rendered text alone. A renderer
error rejects the call. -/
def changelog (render : Renderer) (args : ChangelogOptions)
    (currentVersion newVersion : String) (commits : List ConventionalCommit)
    (fs : FileSystem) : FileSystem × Except String String :=
  let fs1 := createChangelogIfMissing args fs
  let oldContent :=
    if args.dryRun then ""
    else oldContentOfStr ((readFs fs1 args.changelogFile).getD "")
  match render (mkRenderContext currentVersion newVersion)
      (finalizeContext args) commits with
  | Except.error e => (fs1, Except.error e)
  | Except.ok content =>
    if args.dryRun then (fs1, Except.ok content)
    else
      (writeFile args fs1 args.changelogFile
        (args.changeLogHeader ++ "\n" ++
          collapseTrailingNewlines (content ++ oldContent)),
       Except.ok content)

/-- JavaScript truthiness of an optional string: `undefined` and the empty
string are falsy. -/
def isTruthy : Option String → Bool
  | none => false
  | some s => decide (s ≠ "")

/-- Source lines 62-71: the `forEach` over unstable packages in the
`separate` treatment, modelled sequentially in package order (the FIFO
completion order of the event loop). Each package changelog is written at
`path.join(pkg.location, args.changelogFile)` from the commits filtered to
that package. A rejected per-package render is an unhandled rejection in the
source - its result is dropped, the walk continues. -/
def writeUnstableChangelogs (render : Renderer) (args : ChangelogOptions)
    (curAlpha newAlpha : String) (commits : List ConventionalCommit) :
    List PackageInfo → FileSystem → FileSystem × List ChangelogResult
  | [], fs => (fs, [])
  | pkg :: rest, fs =>
    let pkgChangelog := pathJoin pkg.location args.changelogFile
    let pkgArgs := { args with changelogFile := pkgChangelog }
    let pkgCommits :=
      filterCommits commits { includePackages := some [pkg.simplifiedName] }
    match changelog render pkgArgs curAlpha newAlpha pkgCommits fs with
    | (fs1, Except.ok contents) =>
      let step := writeUnstableChangelogs render args curAlpha newAlpha commits rest fs1
      (step.1, { filePath := pkgChangelog, fileContents := contents } :: step.2)
    | (fs1, Except.error _) =>
      writeUnstableChangelogs render args curAlpha newAlpha commits rest fs1

/-- Source lines 33-79: `writeChangelogs`. Returns immediately on the skip
flag; otherwise computes the unstable packages and the stable commits and
dispatches on the treatment (defaulting to `include`). The `separate`
treatment first checks that both alpha versions are truthy (JavaScript
falsiness: `undefined` or the empty string fail the check). -/
def writeChangelogs (render : Renderer) (args : ChangelogOptions)
    (currentVersion newVersion : Versions) (commits : List ConventionalCommit)
    (packages : List PackageInfo) (fs : FileSystem) :
    FileSystem × Except CdkError (List ChangelogResult) :=
  if args.skipChangelog then (fs, Except.ok [])
  else
    let treatment := args.experimentalChangesTreatment.getD "include"
    let unstablePackages := packages.filter fun p => p.unstable
    let stableCommits :=
      filterCommits commits
        { excludePackages := some (unstablePackages.map fun p => p.simplifiedName) }
    if treatment = "include" then
      match changelog render args currentVersion.stableVersion
          newVersion.stableVersion commits fs with
      | (fs1, Except.error e) => (fs1, Except.error (CdkError.renderError e))
      | (fs1, Except.ok contents) =>
        (fs1, Except.ok [{ filePath := args.changelogFile, fileContents := contents }])
    else if treatment = "strip" then
      match changelog render args currentVersion.stableVersion
          newVersion.stableVersion stableCommits fs with
      | (fs1, Except.error e) => (fs1, Except.error (CdkError.renderError e))
      | (fs1, Except.ok contents) =>
        (fs1, Except.ok [{ filePath := args.changelogFile, fileContents := contents }])
    else if treatment = "separate" then
      if !isTruthy currentVersion.alphaVersion || !isTruthy newVersion.alphaVersion then
        (fs, Except.error (CdkError.thrown
          "unable to create \"separate\" changelogs without alpha package versions"))
      else
        let curAlpha := currentVersion.alphaVersion.getD ""
        let newAlpha := newVersion.alphaVersion.getD ""
        let pkgStep :=
          writeUnstableChangelogs render args curAlpha newAlpha commits unstablePackages fs
        match changelog render args currentVersion.stableVersion
            newVersion.stableVersion stableCommits pkgStep.1 with
        | (fs2, Except.error e) => (fs2, Except.error (CdkError.renderError e))
        | (fs2, Except.ok contents) =>
          (fs2, Except.ok (pkgStep.2 ++
            [{ filePath := args.changelogFile, fileContents := contents }]))
    else
      (fs, Except.error (CdkError.thrown
        ("unsupported experimentalChanges type: " ++
          (match args.experimentalChangesTreatment with
           | some t => t
           | none => "undefined"))))

/-! ### Filesystem lemmas -/

theorem readFs_writeFs (fs : FileSystem) (p c q : String) :
    readFs (writeFs fs p c) q = if q = p then some c else readFs fs q := by
  rcases eq_or_ne q p with h | h
  · subst h
    simp [readFs, writeFs, List.find?_cons]
  · simp [readFs, writeFs, List.find?_cons, h, Ne.symm h]

theorem createChangelogIfMissing_effect (args : ChangelogOptions)
    (fs : FileSystem) (p : String) :
    readFs (createChangelogIfMissing args fs) p = readFs fs p ∨
      (p = args.changelogFile ∧ readFs fs p = none ∧ args.dryRun = false ∧
        readFs (createChangelogIfMissing args fs) p = some "\n") := by
  unfold createChangelogIfMissing writeFile
  by_cases h1 : (readFs fs args.changelogFile).isSome
  · left
    rw [if_pos h1]
  · rw [if_neg h1]
    by_cases h2 : args.dryRun
    · left
      rw [if_pos h2]
    · rw [if_neg h2]
      by_cases h3 : p = args.changelogFile
      · right
        subst h3
        refine ⟨rfl, Option.not_isSome_iff_eq_none.mp h1, by simpa using h2, ?_⟩
        rw [readFs_writeFs]
        simp
      · left
        rw [readFs_writeFs, if_neg h3]

theorem createChangelogIfMissing_existing (args : ChangelogOptions)
    (fs : FileSystem) (h : (readFs fs args.changelogFile).isSome) :
    createChangelogIfMissing args fs = fs := by
  unfold createChangelogIfMissing
  rw [if_pos h]

/-! ### Lemmas about the pattern search -/

theorem matchesAt_nil (b : Bool) : matchesAt b [] = false := by
  cases b <;> rfl

theorem matchesAtPos_of_ge (s : List Char) (j : Nat) (h : s.length ≤ j) :
    matchesAtPos s j = false := by
  unfold matchesAtPos
  rw [List.drop_eq_nil_of_le h, matchesAt_nil]

theorem searchFrom_eq_some (cs : List Char) : ∀ (s : List Char) (i k : Nat),
    s.drop i = cs →
    searchFrom (lineStartAt s i) i cs = some k →
    i ≤ k ∧ matchesAtPos s k = true ∧
      ∀ j, i ≤ j → j < k → matchesAtPos s j = false := by
  induction cs with
  | nil =>
    intro s i k _ h
    simp [searchFrom] at h
  | cons c rest ih =>
    intro s i k hdrop h
    rw [searchFrom] at h
    by_cases hm : matchesAt (lineStartAt s i) (c :: rest) = true
    · rw [if_pos hm] at h
      obtain rfl : i = k := by simpa using h
      refine ⟨Nat.le_refl _, ?_, ?_⟩
      · unfold matchesAtPos
        rw [hdrop]
        exact hm
      · intro j h1 h2
        omega
    · rw [if_neg hm] at h
      have hget : s[i]? = some c := by
        have h0 := List.getElem?_drop s i 0
        rw [hdrop] at h0
        simpa using h0.symm
      have hline : lineStartAt s (i + 1) = isLineTerminator c := by
        unfold lineStartAt
        simp [hget]
      have hdrop2 : s.drop (i + 1) = rest := by
        have h1 := List.drop_drop 1 i s
        rw [hdrop] at h1
        simpa using h1.symm
      rw [← hline] at h
      obtain ⟨hik, hk, hall⟩ := ih s (i + 1) k hdrop2 h
      refine ⟨by omega, hk, ?_⟩
      intro j hij hjk
      rcases Nat.eq_or_lt_of_le hij with rfl | hlt
      · unfold matchesAtPos
        rw [hdrop]
        simpa using hm
      · exact hall j hlt hjk

theorem searchFrom_eq_none (cs : List Char) : ∀ (s : List Char) (i : Nat),
    s.drop i = cs →
    searchFrom (lineStartAt s i) i cs = none →
    ∀ j, i ≤ j → matchesAtPos s j = false := by
  induction cs with
  | nil =>
    intro s i hdrop _ j hij
    have hlen : s.length ≤ i := by
      by_contra hc
      have : s.drop i ≠ [] := by
        simp [List.drop_eq_nil_iff]
        omega
      exact this hdrop
    exact matchesAtPos_of_ge s j (Nat.le_trans hlen hij)
  | cons c rest ih =>
    intro s i hdrop h j hij
    rw [searchFrom] at h
    by_cases hm : matchesAt (lineStartAt s i) (c :: rest) = true
    · rw [if_pos hm] at h
      exact absurd h (by simp)
    · rw [if_neg hm] at h
      have hget : s[i]? = some c := by
        have h0 := List.getElem?_drop s i 0
        rw [hdrop] at h0
        simpa using h0.symm
      have hline : lineStartAt s (i + 1) = isLineTerminator c := by
        unfold lineStartAt
        simp [hget]
      have hdrop2 : s.drop (i + 1) = rest := by
        have h1 := List.drop_drop 1 i s
        rw [hdrop] at h1
        simpa using h1.symm
      rw [← hline] at h
      rcases Nat.eq_or_lt_of_le hij with rfl | hlt
      · unfold matchesAtPos
        rw [hdrop]
        simpa using hm
      · exact ih s (i + 1) hdrop2 h j hlt

theorem searchPattern_some {s : List Char} {k : Nat}
    (h : searchPattern s = some k) :
    matchesAtPos s k = true ∧ ∀ j, j < k → matchesAtPos s j = false := by
  have h0 : lineStartAt s 0 = true := by simp [lineStartAt]
  have hs : searchFrom (lineStartAt s 0) 0 (s.drop 0) = some k := by
    rw [h0, List.drop_zero]
    exact h
  obtain ⟨_, hk, hall⟩ := searchFrom_eq_some (s.drop 0) s 0 k rfl hs
  exact ⟨hk, fun j hj => hall j (Nat.zero_le j) hj⟩

theorem searchPattern_none {s : List Char} (h : searchPattern s = none) :
    ∀ j, matchesAtPos s j = false := by
  have h0 : lineStartAt s 0 = true := by simp [lineStartAt]
  have hs : searchFrom (lineStartAt s 0) 0 (s.drop 0) = none := by
    rw [h0, List.drop_zero]
    exact h
  exact fun j => searchFrom_eq_none (s.drop 0) s 0 rfl hs j (Nat.zero_le j)

/-! ### Lemmas about trailing-newline normalization -/

theorem dropWhile_head_false {α : Type} (p : α → Bool) :
    ∀ (l : List α) (c : α), (l.dropWhile p).head? = some c → p c = false := by
  intro l
  induction l with
  | nil =>
    intro c h
    simp [List.dropWhile] at h
  | cons a t ih =>
    intro c h
    rw [List.dropWhile_cons] at h
    by_cases hpa : p a = true
    · rw [if_pos hpa] at h
      exact ih c h
    · rw [if_neg hpa] at h
      obtain rfl : a = c := by simpa using h
      simpa using hpa

theorem dropWhile_ne_nil {α : Type} (p : α → Bool) (l : List α) (c : α)
    (hc : c ∈ l) (hpc : p c = false) : l.dropWhile p ≠ [] := by
  intro h
  rw [List.dropWhile_eq_nil_iff] at h
  rw [h c hc] at hpc
  cases hpc

theorem collapse_data (s : String) :
    (collapseTrailingNewlines s).data =
      if s.data.reverse.head? = some '\n' then
        ('\n' :: s.data.reverse.dropWhile fun c => c == '\n').reverse
      else s.data := by
  unfold collapseTrailingNewlines
  split <;> rfl

theorem collapse_eq_self (s : String) (h : s.data.reverse.head? ≠ some '\n') :
    collapseTrailingNewlines s = s := by
  unfold collapseTrailingNewlines
  rw [if_neg h]

theorem collapseTrailingNewlines_idem (s : String) :
    collapseTrailingNewlines (collapseTrailingNewlines s) =
      collapseTrailingNewlines s := by
  by_cases h : s.data.reverse.head? = some '\n'
  · have hd : (collapseTrailingNewlines s).data =
        ('\n' :: s.data.reverse.dropWhile fun c => c == '\n').reverse := by
      rw [collapse_data, if_pos h]
    have hrev : (collapseTrailingNewlines s).data.reverse =
        '\n' :: s.data.reverse.dropWhile fun c => c == '\n' := by
      rw [hd, List.reverse_reverse]
    have hhead : (collapseTrailingNewlines s).data.reverse.head? = some '\n' := by
      rw [hrev]
      rfl
    have hgoal : (collapseTrailingNewlines (collapseTrailingNewlines s)).data =
        (collapseTrailingNewlines s).data := by
      rw [collapse_data, if_pos hhead, hrev, hd]
      have hstep : (('\n' :: s.data.reverse.dropWhile fun c => c == '\n').dropWhile
          fun c => c == '\n') = s.data.reverse.dropWhile fun c => c == '\n' := by
        rw [List.dropWhile_cons, if_pos (by rfl)]
        exact List.dropWhile_idempotent _ _
      rw [hstep]
    calc collapseTrailingNewlines (collapseTrailingNewlines s)
        = ⟨(collapseTrailingNewlines (collapseTrailingNewlines s)).data⟩ := rfl
      _ = ⟨(collapseTrailingNewlines s).data⟩ := by rw [hgoal]
      _ = collapseTrailingNewlines s := rfl
  · rw [collapse_eq_self s h, collapse_eq_self s h]

theorem trailingNewlineCount_of_write (header X : String)
    (h1 : X.data.reverse.head? = some '\n')
    (h2 : ∃ c ∈ X.data, (c == '\n') = false) :
    trailingNewlineCount (header ++ "\n" ++ collapseTrailingNewlines X) = 1 := by
  obtain ⟨c, hc, hpc⟩ := h2
  have hne : (X.data.reverse.dropWhile fun ch => ch == '\n') ≠ [] :=
    dropWhile_ne_nil _ X.data.reverse c (List.mem_reverse.mpr hc) hpc
  obtain ⟨e, d, hd⟩ : ∃ e d,
      (X.data.reverse.dropWhile fun ch => ch == '\n') = e :: d := by
    rcases hh : X.data.reverse.dropWhile fun ch => ch == '\n' with _ | ⟨e, d⟩
    · exact absurd hh hne
    · exact ⟨e, d, rfl⟩
  have hpe : (e == '\n') = false := by
    apply dropWhile_head_false (fun ch => ch == '\n') X.data.reverse
    rw [hd]
    rfl
  have hcd : (collapseTrailingNewlines X).data = ('\n' :: e :: d).reverse := by
    rw [collapse_data, if_pos h1, hd]
  unfold trailingNewlineCount
  rw [String.data_append, String.data_append, List.reverse_append,
    List.reverse_append, hcd, List.reverse_reverse]
  simp [List.takeWhile_cons, hpe]

/-! ### Lemmas about `changelog` and `writeChangelogs` -/

theorem changelog_snd (render : Renderer) (args : ChangelogOptions)
    (cv nv : String) (commits : List ConventionalCommit) (fs : FileSystem) :
    (changelog render args cv nv commits fs).2 =
      render (mkRenderContext cv nv) (finalizeContext args) commits := by
  unfold changelog
  cases hr : render (mkRenderContext cv nv) (finalizeContext args) commits with
  | error e => rfl
  | ok content =>
    by_cases hd : args.dryRun = true
    · simp [hd]
    · simp [hd]

theorem changelog_dryRun (render : Renderer) (args : ChangelogOptions)
    (cv nv : String) (commits : List ConventionalCommit) (fs : FileSystem)
    (h : args.dryRun = true) :
    changelog render args cv nv commits fs =
      (fs, render (mkRenderContext cv nv) (finalizeContext args) commits) := by
  have hcreate : createChangelogIfMissing args fs = fs := by
    unfold createChangelogIfMissing writeFile
    rw [h]
    simp
  unfold changelog
  rw [hcreate, h]
  cases hr : render (mkRenderContext cv nv) (finalizeContext args) commits with
  | error e => simp
  | ok content => simp

theorem changelog_renderError (render : Renderer) (args : ChangelogOptions)
    (cv nv : String) (commits : List ConventionalCommit) (fs : FileSystem)
    (e : String)
    (hr : render (mkRenderContext cv nv) (finalizeContext args) commits =
      Except.error e) :
    changelog render args cv nv commits fs =
      (createChangelogIfMissing args fs, Except.error e) := by
  unfold changelog
  rw [hr]

theorem changelog_ok_write (render : Renderer) (args : ChangelogOptions)
    (cv nv : String) (commits : List ConventionalCommit) (fs : FileSystem)
    (content : String)
    (hdry : args.dryRun = false)
    (hr : render (mkRenderContext cv nv) (finalizeContext args) commits =
      Except.ok content) :
    changelog render args cv nv commits fs =
      (writeFs (createChangelogIfMissing args fs) args.changelogFile
        (args.changeLogHeader ++ "\n" ++
          collapseTrailingNewlines (content ++ oldContentOfStr
            ((readFs (createChangelogIfMissing args fs) args.changelogFile).getD ""))),
       Except.ok content) := by
  unfold changelog writeFile
  rw [hr, hdry]
  simp

theorem writeUnstableChangelogs_ok
    (f : RenderContext → (WriterContext → WriterContext) →
      List ConventionalCommit → String)
    (args : ChangelogOptions) (curAlpha newAlpha : String)
    (commits : List ConventionalCommit) :
    ∀ (pkgs : List PackageInfo) (fs : FileSystem),
    (writeUnstableChangelogs (fun c h cs => Except.ok (f c h cs)) args
      curAlpha newAlpha commits pkgs fs).2 =
      pkgs.map fun pkg =>
        { filePath := pathJoin pkg.location args.changelogFile
          fileContents := f (mkRenderContext curAlpha newAlpha)
            (finalizeContext
              { args with changelogFile := pathJoin pkg.location args.changelogFile })
            (filterCommits commits
              { includePackages := some [pkg.simplifiedName] }) } := by
  intro pkgs
  induction pkgs with
  | nil => intro fs; rfl
  | cons pkg rest ih =>
    intro fs
    rw [writeUnstableChangelogs]
    have hsnd := changelog_snd (fun c h cs => Except.ok (f c h cs))
      { args with changelogFile := pathJoin pkg.location args.changelogFile }
      curAlpha newAlpha
      (filterCommits commits { includePackages := some [pkg.simplifiedName] }) fs
    rcases hCL : changelog (fun c h cs => Except.ok (f c h cs))
        { args with changelogFile := pathJoin pkg.location args.changelogFile }
        curAlpha newAlpha
        (filterCommits commits { includePackages := some [pkg.simplifiedName] })
        fs with ⟨fs1, r⟩
    rw [hCL] at hsnd
    simp only at hsnd
    subst hsnd
    simp only [hCL, List.map_cons]
    rw [ih fs1]

/-! ### Claim theorems -/

/-- C8: whenever `skip.changelog` is set, `writeChangelogs` returns an empty
sequence, leaves the filesystem untouched and raises no error, for every
treatment, version pair, commit list and package list. -/
theorem writeChangelogs_skip_noop (render : Renderer) (args : ChangelogOptions)
    (cv nv : Versions) (commits : List ConventionalCommit)
    (pkgs : List PackageInfo) (fs : FileSystem)
    (h : args.skipChangelog = true) :
    writeChangelogs render args cv nv commits pkgs fs = (fs, Except.ok []) := by
  unfold writeChangelogs
  rw [h]
  simp

/-- Witness for C8 at a concrete input. -/
theorem writeChangelogs_skip_noop_witness :
    writeChangelogs (fun _ _ _ => Except.error "boom")
      { skipChangelog := true, changelogFile := "CHANGELOG.md",
        experimentalChangesTreatment := some "separate" }
      { stableVersion := "1.0.0" } { stableVersion := "1.1.0" }
      [{ subject := "feat", packages := ["a"] }]
      [{ simplifiedName := "a", location := "packages/a", unstable := true }]
      [] = ([], Except.ok []) :=
  writeChangelogs_skip_noop _ _ _ _ _ _ _ rfl

/-- C6: with `dryRun` set, `changelog` leaves the filesystem untouched
(neither creating nor modifying the target file), never reads the existing
content (the result is the output of the renderer alone, independent of the
filesystem and with no old content merged), and resolves with exactly the
newly rendered text. -/
theorem changelog_dry_run_pure (render : Renderer) (args : ChangelogOptions)
    (cv nv : String) (commits : List ConventionalCommit) (fs : FileSystem)
    (h : args.dryRun = true) :
    changelog render args cv nv commits fs =
      (fs, render (mkRenderContext cv nv) (finalizeContext args) commits) :=
  changelog_dryRun render args cv nv commits fs h

/-- Witness for C6 at a concrete input: the file is absent and stays absent,
and the call resolves with the rendered text alone. -/
theorem changelog_dry_run_pure_witness :
    changelog (fun _ _ _ => Except.ok "rendered\n")
      { changelogFile := "CHANGELOG.md", dryRun := true } "1.0.0" "1.1.0" [] [] =
      ([], Except.ok "rendered\n") :=
  changelog_dry_run_pure _ _ _ _ _ _ rfl

/-- C7: the `finalizeContext` hook retitles every note group named
`BREAKING CHANGES` to `BREAKING CHANGES TO EXPERIMENTAL FEATURES`, leaves
every other note group unchanged, clears the date exactly when
`includeDateInChangelog` is `false`, and is the hook `changelog` hands to the
renderer unconditionally, on every call: the behaviour of `changelog` depends
on the renderer only through its value at the hook `finalizeContext args`. -/
theorem finalizeContext_spec (args : ChangelogOptions) (ctx : WriterContext) :
    ((finalizeContext args ctx).noteGroups =
      ctx.noteGroups.map fun gs =>
        gs.map fun ng =>
          if ng.title = "BREAKING CHANGES" then
            { ng with title := "BREAKING CHANGES TO EXPERIMENTAL FEATURES" }
          else ng)
    ∧ ((finalizeContext args ctx).date =
        if args.includeDateInChangelog = some false then none else ctx.date)
    ∧ (args.includeDateInChangelog = some false →
        (finalizeContext args ctx).date = none)
    ∧ (∀ (r1 r2 : Renderer) (cv nv : String)
        (commits : List ConventionalCommit) (fs : FileSystem),
        r1 (mkRenderContext cv nv) (finalizeContext args) commits =
          r2 (mkRenderContext cv nv) (finalizeContext args) commits →
        changelog r1 args cv nv commits fs = changelog r2 args cv nv commits fs) := by
  refine ⟨?_, ?_, ?_, ?_⟩
  · unfold finalizeContext
    split <;> rfl
  · unfold finalizeContext
    split <;> simp_all
  · intro h
    unfold finalizeContext
    rw [if_pos h]
  · intro r1 r2 cv nv commits fs h
    unfold changelog
    rw [h]

/-- Witness for C7 at a concrete input: one breaking group renamed, another
left alone, the date cleared under `includeDateInChangelog := false`. -/
theorem finalizeContext_spec_witness :
    (finalizeContext
      { changelogFile := "CHANGELOG.md", includeDateInChangelog := some false }
      { noteGroups := some [{ title := "BREAKING CHANGES" }, { title := "Features" }],
        date := some "2021-01-01" }).noteGroups =
      some [{ title := "BREAKING CHANGES TO EXPERIMENTAL FEATURES" },
        { title := "Features" }] ∧
    (finalizeContext
      { changelogFile := "CHANGELOG.md", includeDateInChangelog := some false }
      { noteGroups := some [{ title := "BREAKING CHANGES" }, { title := "Features" }],
        date := some "2021-01-01" }).date = none := by
  have h := finalizeContext_spec
    { changelogFile := "CHANGELOG.md", includeDateInChangelog := some false }
    { noteGroups := some [{ title := "BREAKING CHANGES" }, { title := "Features" }],
      date := some "2021-01-01" }
  refine ⟨?_, h.2.2.1 rfl⟩
  rw [h.1]
  rfl

/-- C9: when the renderer signals an error, the `changelog` call rejects with
exactly that error, and no merged content is written: the only possible
filesystem change is the creation of a missing target file with a lone
newline. -/
theorem changelog_render_error_spec (render : Renderer)
    (args : ChangelogOptions) (cv nv : String)
    (commits : List ConventionalCommit) (fs : FileSystem) (e : String)
    (hr : render (mkRenderContext cv nv) (finalizeContext args) commits =
      Except.error e) :
    (changelog render args cv nv commits fs).2 = Except.error e ∧
    ∀ p, readFs (changelog render args cv nv commits fs).1 p = readFs fs p ∨
      (p = args.changelogFile ∧ readFs fs p = none ∧ args.dryRun = false ∧
        readFs (changelog render args cv nv commits fs).1 p = some "\n") := by
  rw [changelog_renderError render args cv nv commits fs e hr]
  exact ⟨rfl, fun p => createChangelogIfMissing_effect args fs p⟩

/-- Witness for C9 at a concrete input: the call rejects with the underlying
error and the pre-existing file is untouched. -/
theorem changelog_render_error_spec_witness :
    (changelog (fun _ _ _ => Except.error "stream failed")
      { changelogFile := "CHANGELOG.md" } "1.0.0" "1.1.0" []
      [("CHANGELOG.md", "old\n")]).2 = Except.error "stream failed" ∧
    readFs (changelog (fun _ _ _ => Except.error "stream failed")
      { changelogFile := "CHANGELOG.md" } "1.0.0" "1.1.0" []
      [("CHANGELOG.md", "old\n")]).1 "CHANGELOG.md" = some "old\n" := by
  have h := changelog_render_error_spec (fun _ _ _ => Except.error "stream failed")
    { changelogFile := "CHANGELOG.md" } "1.0.0" "1.1.0" []
    [("CHANGELOG.md", "old\n")] "stream failed" rfl
  refine ⟨h.1, ?_⟩
  rcases h.2 "CHANGELOG.md" with h2 | ⟨_, h2, _⟩
  · rw [h2]
    decide
  · exact absurd h2 (by decide)

/-- The apostrophe character, U+0027. -/
def singleQuote : String := ⟨[Char.ofNat 39]⟩

/-- C4 counterexample: with the `separate` treatment and a missing alpha
version the operation does throw before touching anything, but the message
quotes the word separate with double quotes, not with the single quotes the
claim states. -/
theorem separate_missing_alpha_message_counterexample :
    (writeChangelogs (fun _ _ _ => Except.ok "X")
      { changelogFile := "CHANGELOG.md",
        experimentalChangesTreatment := some "separate" }
      { stableVersion := "1.0.0" } { stableVersion := "1.1.0" } [] [] []).2 =
      Except.error (CdkError.thrown
        "unable to create \"separate\" changelogs without alpha package versions") ∧
    "unable to create \"separate\" changelogs without alpha package versions" ≠
      "unable to create " ++ singleQuote ++ "separate" ++ singleQuote ++
        " changelogs without alpha package versions" := by
  constructor
  · rfl
  · decide

/-- C4 (amended): with the `separate` treatment, if either alpha version is
undefined (and the skip flag is unset), `writeChangelogs` fails with the
error message `unable to create "separate" changelogs without alpha package
versions` - with separate in double quotes - before any rendering starts
(the outcome is the same for every renderer) and before any file is touched
(the filesystem is returned unchanged). -/
theorem writeChangelogs_separate_missing_alpha (render : Renderer)
    (args : ChangelogOptions) (cv nv : Versions)
    (commits : List ConventionalCommit) (pkgs : List PackageInfo)
    (fs : FileSystem)
    (hskip : args.skipChangelog = false)
    (htreat : args.experimentalChangesTreatment = some "separate")
    (halpha : cv.alphaVersion = none ∨ nv.alphaVersion = none) :
    writeChangelogs render args cv nv commits pkgs fs =
      (fs, Except.error (CdkError.thrown
        "unable to create \"separate\" changelogs without alpha package versions")) := by
  unfold writeChangelogs
  rw [hskip]
  simp only [Bool.false_eq_true, if_false, htreat, Option.getD_some]
  rw [if_neg (by decide : ¬("separate" : String) = "include"),
    if_neg (by decide : ¬("separate" : String) = "strip"), if_pos trivial]
  rcases halpha with h | h <;> simp [isTruthy, h]

/-- Witness for C4 at a concrete input with the new alpha version missing. -/
theorem writeChangelogs_separate_missing_alpha_witness :
    writeChangelogs (fun _ _ _ => Except.ok "X")
      { changelogFile := "CHANGELOG.md",
        experimentalChangesTreatment := some "separate" }
      { stableVersion := "1.0.0", alphaVersion := some "2.0.0-alpha.0" }
      { stableVersion := "1.1.0" }
      [{ subject := "feat", packages := ["a"] }]
      [{ simplifiedName := "a", location := "packages/a", unstable := true }]
      [("CHANGELOG.md", "old\n")] =
      ([("CHANGELOG.md", "old\n")], Except.error (CdkError.thrown
        "unable to create \"separate\" changelogs without alpha package versions")) :=
  writeChangelogs_separate_missing_alpha _ _ _ _ _ _ _ rfl rfl (Or.inr rfl)

/-- C1 counterexample: under the `separate` treatment with both alpha
versions defined but the current one empty, the JavaScript
truthiness check fails and the call throws instead of returning the combined
per-package and stable results the claim promises. -/
theorem separate_defined_empty_alpha_counterexample :
    ({ stableVersion := "1.0.0", alphaVersion := some "" } :
      Versions).alphaVersion.isSome = true ∧
    ({ stableVersion := "1.1.0", alphaVersion := some "2.0.0-alpha.1" } :
      Versions).alphaVersion.isSome = true ∧
    (writeChangelogs (fun _ _ _ => Except.ok "X")
      { changelogFile := "CHANGELOG.md",
        experimentalChangesTreatment := some "separate" }
      { stableVersion := "1.0.0", alphaVersion := some "" }
      { stableVersion := "1.1.0", alphaVersion := some "2.0.0-alpha.1" }
      [] [{ simplifiedName := "a", location := "packages/a", unstable := true }]
      []).2 =
      Except.error (CdkError.thrown
        "unable to create \"separate\" changelogs without alpha package versions") := by
  refine ⟨rfl, rfl, ?_⟩
  rfl

/-- C1 (amended): under the `separate` treatment with both alpha versions
defined and non-empty (JavaScript truthiness), and a renderer that always
succeeds, `writeChangelogs` returns one result per unstable package - at
`path.join(pkg.location, changelogFile)`, rendered from the commits filtered
to that package with the alpha version pair - followed by the top-level
stable changelog rendered from the stable commits with the stable version
pair; all results combined. -/
theorem writeChangelogs_separate_results
    (f : RenderContext → (WriterContext → WriterContext) →
      List ConventionalCommit → String)
    (args : ChangelogOptions) (cv nv : Versions)
    (commits : List ConventionalCommit) (pkgs : List PackageInfo)
    (fs : FileSystem) (curAlpha newAlpha : String)
    (hskip : args.skipChangelog = false)
    (htreat : args.experimentalChangesTreatment = some "separate")
    (hcur : cv.alphaVersion = some curAlpha) (hcurne : curAlpha ≠ "")
    (hnew : nv.alphaVersion = some newAlpha) (hnewne : newAlpha ≠ "") :
    (writeChangelogs (fun c h cs => Except.ok (f c h cs)) args cv nv commits
      pkgs fs).2 =
      Except.ok
        (((pkgs.filter fun p => p.unstable).map fun pkg =>
          { filePath := pathJoin pkg.location args.changelogFile
            fileContents := f (mkRenderContext curAlpha newAlpha)
              (finalizeContext
                { args with changelogFile := pathJoin pkg.location args.changelogFile })
              (filterCommits commits
                { includePackages := some [pkg.simplifiedName] }) }) ++
        [{ filePath := args.changelogFile
           fileContents := f (mkRenderContext cv.stableVersion nv.stableVersion)
             (finalizeContext args)
             (filterCommits commits
               { excludePackages := some
                   ((pkgs.filter fun p => p.unstable).map fun p =>
                     p.simplifiedName) }) }]) := by
  unfold writeChangelogs
  rw [hskip]
  simp only [Bool.false_eq_true, if_false, htreat, Option.getD_some]
  rw [if_neg (by decide : ¬("separate" : String) = "include"),
    if_neg (by decide : ¬("separate" : String) = "strip"), if_pos trivial]
  rw [hcur, hnew]
  have h1 : isTruthy (some curAlpha) = true := by simp [isTruthy, hcurne]
  have h2 : isTruthy (some newAlpha) = true := by simp [isTruthy, hnewne]
  simp only [h1, h2, Bool.not_true, Bool.or_self, Bool.false_eq_true, if_false,
    Option.getD_some]
  have hsnd := changelog_snd (fun c h cs => Except.ok (f c h cs)) args
    cv.stableVersion nv.stableVersion
    (filterCommits commits
      { excludePackages := some
          ((pkgs.filter fun p => p.unstable).map fun p => p.simplifiedName) })
    (writeUnstableChangelogs (fun c h cs => Except.ok (f c h cs)) args curAlpha
      newAlpha commits (pkgs.filter fun p => p.unstable) fs).1
  rcases hCL : changelog (fun c h cs => Except.ok (f c h cs)) args
      cv.stableVersion nv.stableVersion
      (filterCommits commits
        { excludePackages := some
            ((pkgs.filter fun p => p.unstable).map fun p => p.simplifiedName) })
      (writeUnstableChangelogs (fun c h cs => Except.ok (f c h cs)) args curAlpha
        newAlpha commits (pkgs.filter fun p => p.unstable) fs).1
    with ⟨fs2, r⟩
  rw [hCL] at hsnd
  simp only at hsnd
  subst hsnd
  simp only [hCL]
  rw [writeUnstableChangelogs_ok f args curAlpha newAlpha commits
    (pkgs.filter fun p => p.unstable) fs]
  simp only [hskip, htreat]

/-- Witness for C1 at a concrete input: one unstable and one stable package,
commits spanning both; the call returns the per-package result followed by
the stable one. -/
theorem writeChangelogs_separate_results_witness :
    (writeChangelogs
      (fun c _ cs => Except.ok (c.currentTag ++ ":" ++ toString cs.length))
      { changelogFile := "CHANGELOG.md",
        experimentalChangesTreatment := some "separate" }
      { stableVersion := "1.0.0", alphaVersion := some "1.0.0-alpha.0" }
      { stableVersion := "1.1.0", alphaVersion := some "1.1.0-alpha.0" }
      [{ subject := "c1", packages := ["pka"] },
       { subject := "c2", packages := [] },
       { subject := "c3", packages := ["pkb", "pka"] },
       { subject := "c4", packages := ["pkb"] }]
      [{ simplifiedName := "pka", location := "packages/a", unstable := true },
       { simplifiedName := "pkb", location := "packages/b", unstable := false }]
      []).2 =
      Except.ok
        [{ filePath := "packages/a/CHANGELOG.md",
           fileContents := "v1.1.0-alpha.0:2" },
         { filePath := "CHANGELOG.md", fileContents := "v1.1.0:3" }] := by
  have h := writeChangelogs_separate_results
    (fun c _ cs => c.currentTag ++ ":" ++ toString cs.length)
    { changelogFile := "CHANGELOG.md",
      experimentalChangesTreatment := some "separate" }
    { stableVersion := "1.0.0", alphaVersion := some "1.0.0-alpha.0" }
    { stableVersion := "1.1.0", alphaVersion := some "1.1.0-alpha.0" }
    [{ subject := "c1", packages := ["pka"] },
     { subject := "c2", packages := [] },
     { subject := "c3", packages := ["pkb", "pka"] },
     { subject := "c4", packages := ["pkb"] }]
    [{ simplifiedName := "pka", location := "packages/a", unstable := true },
     { simplifiedName := "pkb", location := "packages/b", unstable := false }]
    [] "1.0.0-alpha.0" "1.1.0-alpha.0" rfl rfl rfl (by decide) rfl (by decide)
  rw [h]
  rfl

/-- C5: the stable commits computed by `writeChangelogs` contain exactly the
commits not associated solely with unstable packages - a commit with no
package, or with at least one package that is not an unstable one, is kept;
a commit associated only with unstable packages is dropped. Under the
`strip` treatment exactly this list is rendered, and under `include` the
full commit list is rendered, each against the stable version pair, yielding
a single result at `args.changelogFile`. -/
theorem writeChangelogs_stable_commits
    (commits : List ConventionalCommit) (pkgs : List PackageInfo) :
    (∀ c, c ∈ filterCommits commits
        { excludePackages := some
            ((pkgs.filter fun p => p.unstable).map fun p => p.simplifiedName) } ↔
      c ∈ commits ∧ (c.packages = [] ∨ ∃ p ∈ c.packages,
        p ∉ (pkgs.filter fun q => q.unstable).map fun q => q.simplifiedName))
    ∧ (∀ (f : RenderContext → (WriterContext → WriterContext) →
          List ConventionalCommit → String)
        (args : ChangelogOptions) (cv nv : Versions) (fs : FileSystem),
        args.skipChangelog = false →
        ((args.experimentalChangesTreatment = some "strip" →
          (writeChangelogs (fun c h cs => Except.ok (f c h cs)) args cv nv
            commits pkgs fs).2 =
            Except.ok
              [{ filePath := args.changelogFile,
                 fileContents :=
                   f (mkRenderContext cv.stableVersion nv.stableVersion)
                     (finalizeContext args)
                     (filterCommits commits
                       { excludePackages := some
                           ((pkgs.filter fun p => p.unstable).map fun p =>
                             p.simplifiedName) }) }])
        ∧ (args.experimentalChangesTreatment = some "include" →
          (writeChangelogs (fun c h cs => Except.ok (f c h cs)) args cv nv
            commits pkgs fs).2 =
            Except.ok
              [{ filePath := args.changelogFile,
                 fileContents :=
                   f (mkRenderContext cv.stableVersion nv.stableVersion)
                     (finalizeContext args) commits }]))) := by
  constructor
  · intro c
    simp only [filterCommits, List.mem_filter, Bool.and_eq_true, Bool.or_eq_true,
      List.any_eq_true, Bool.not_eq_true']
    constructor
    · rintro ⟨hc, -, hex⟩
      refine ⟨hc, ?_⟩
      rcases hex with hemp | ⟨p, hp, hcon⟩
      · exact Or.inl (by simpa [List.isEmpty_iff] using hemp)
      · refine Or.inr ⟨p, hp, ?_⟩
        intro hmem
        simp [hmem] at hcon
    · rintro ⟨hc, hex⟩
      refine ⟨hc, trivial, ?_⟩
      rcases hex with hemp | ⟨p, hp, hmem⟩
      · exact Or.inl (by simp [List.isEmpty_iff, hemp])
      · refine Or.inr ⟨p, hp, ?_⟩
        simpa using hmem
  · intro f args cv nv fs hskip
    constructor
    · intro htreat
      unfold writeChangelogs
      rw [hskip]
      simp only [Bool.false_eq_true, if_false, htreat, Option.getD_some]
      rw [if_neg (by decide : ¬("strip" : String) = "include"), if_pos trivial]
      have hsnd := changelog_snd (fun c h cs => Except.ok (f c h cs)) args
        cv.stableVersion nv.stableVersion
        (filterCommits commits
          { excludePackages := some
              ((pkgs.filter fun p => p.unstable).map fun p => p.simplifiedName) })
        fs
      rcases hCL : changelog (fun c h cs => Except.ok (f c h cs)) args
          cv.stableVersion nv.stableVersion
          (filterCommits commits
            { excludePackages := some
                ((pkgs.filter fun p => p.unstable).map fun p => p.simplifiedName) })
          fs with ⟨fs1, r⟩
      rw [hCL] at hsnd
      simp only at hsnd
      subst hsnd
      simp only [hCL]
    · intro htreat
      unfold writeChangelogs
      rw [hskip]
      simp only [Bool.false_eq_true, if_false, htreat, Option.getD_some]
      rw [if_pos trivial]
      have hsnd := changelog_snd (fun c h cs => Except.ok (f c h cs)) args
        cv.stableVersion nv.stableVersion commits fs
      rcases hCL : changelog (fun c h cs => Except.ok (f c h cs)) args
          cv.stableVersion nv.stableVersion commits fs with ⟨fs1, r⟩
      rw [hCL] at hsnd
      simp only at hsnd
      subst hsnd
      simp only [hCL]

/-- Witness for C5 at a concrete input: a commit on the unstable package only
is excluded from the stable commits, a cross-package commit is kept, and the
`strip` treatment renders exactly the stable commits. -/
theorem writeChangelogs_stable_commits_witness :
    ({ subject := "c3", packages := ["pkb", "pka"] } : ConventionalCommit) ∈
      filterCommits
        [{ subject := "c1", packages := ["pka"] },
         { subject := "c3", packages := ["pkb", "pka"] }]
        { excludePackages := some
            (((([{ simplifiedName := "pka", location := "packages/a",
                   unstable := true },
                 { simplifiedName := "pkb", location := "packages/b",
                   unstable := false }] : List PackageInfo).filter
                fun p => p.unstable)).map fun p => p.simplifiedName) } ∧
    (writeChangelogs (fun c _ cs => Except.ok (c.currentTag ++ ":" ++ toString cs.length))
      { changelogFile := "CHANGELOG.md",
        experimentalChangesTreatment := some "strip" }
      { stableVersion := "1.0.0" } { stableVersion := "1.1.0" }
      [{ subject := "c1", packages := ["pka"] },
       { subject := "c3", packages := ["pkb", "pka"] }]
      [{ simplifiedName := "pka", location := "packages/a", unstable := true },
       { simplifiedName := "pkb", location := "packages/b", unstable := false }]
      []).2 =
      Except.ok [{ filePath := "CHANGELOG.md", fileContents := "v1.1.0:1" }] := by
  have h := writeChangelogs_stable_commits
    [{ subject := "c1", packages := ["pka"] },
     { subject := "c3", packages := ["pkb", "pka"] }]
    [{ simplifiedName := "pka", location := "packages/a", unstable := true },
     { simplifiedName := "pkb", location := "packages/b", unstable := false }]
  constructor
  · exact (h.1 { subject := "c3", packages := ["pkb", "pka"] }).mpr
      ⟨by decide, Or.inr ⟨"pkb", by decide, by decide⟩⟩
  · have h2 := ((h.2 (fun c _ cs => c.currentTag ++ ":" ++ toString cs.length)
      { changelogFile := "CHANGELOG.md",
        experimentalChangesTreatment := some "strip" }
      { stableVersion := "1.0.0" } { stableVersion := "1.1.0" } [] rfl).1 rfl)
    rw [h2]
    rfl

/-- C10: an absent `experimentalChangesTreatment` behaves exactly as the
present value `include` (full commit list, stable version pair, single
result at `args.changelogFile`); the unsupported-treatment error is raised
exactly for a present value outside include, strip and separate, and never
when the treatment is absent. -/
theorem writeChangelogs_default_include (render : Renderer)
    (args : ChangelogOptions) (cv nv : Versions)
    (commits : List ConventionalCommit) (pkgs : List PackageInfo)
    (fs : FileSystem) :
    (args.experimentalChangesTreatment = none →
      writeChangelogs render args cv nv commits pkgs fs =
        writeChangelogs render
          { args with experimentalChangesTreatment := some "include" }
          cv nv commits pkgs fs)
    ∧ (∀ t, args.experimentalChangesTreatment = some t →
        args.skipChangelog = false →
        t ≠ "include" → t ≠ "strip" → t ≠ "separate" →
        writeChangelogs render args cv nv commits pkgs fs =
          (fs, Except.error (CdkError.thrown
            ("unsupported experimentalChanges type: " ++ t))))
    ∧ (args.experimentalChangesTreatment = none →
        ∀ m, (writeChangelogs render args cv nv commits pkgs fs).2 ≠
          Except.error (CdkError.thrown m)) := by
  obtain ⟨skip, file, dry, treat, header, incl⟩ := args
  refine ⟨?_, ?_, ?_⟩
  · intro h
    simp only at h
    subst h
    rfl
  · intro t ht hskip h1 h2 h3
    simp only at ht
    subst ht
    simp only at hskip
    subst hskip
    unfold writeChangelogs
    simp only [Bool.false_eq_true, if_false, Option.getD_some]
    rw [if_neg h1, if_neg h2, if_neg h3]
  · intro h m
    simp only at h
    subst h
    unfold writeChangelogs
    cases skip with
    | true => simp
    | false =>
      simp only [Bool.false_eq_true, if_false, Option.getD_none]
      rw [if_pos trivial]
      rcases hCL : changelog render
          { skipChangelog := false, changelogFile := file, dryRun := dry,
            experimentalChangesTreatment := none, changeLogHeader := header,
            includeDateInChangelog := incl }
          cv.stableVersion nv.stableVersion commits fs with ⟨fs1, r⟩
      cases r <;> simp

/-- Witness for C10 at concrete inputs: an absent treatment behaves as
`include`, and a present unsupported value raises the naming error. -/
theorem writeChangelogs_default_include_witness :
    (writeChangelogs (fun _ _ _ => Except.ok "X")
      { changelogFile := "CHANGELOG.md" } { stableVersion := "1.0.0" }
      { stableVersion := "1.1.0" } [] [] [] =
      writeChangelogs (fun _ _ _ => Except.ok "X")
        { changelogFile := "CHANGELOG.md",
          experimentalChangesTreatment := some "include" }
        { stableVersion := "1.0.0" } { stableVersion := "1.1.0" } [] [] [])
    ∧ writeChangelogs (fun _ _ _ => Except.ok "X")
        { changelogFile := "CHANGELOG.md",
          experimentalChangesTreatment := some "bogus" }
        { stableVersion := "1.0.0" } { stableVersion := "1.1.0" } [] [] [] =
        ([], Except.error (CdkError.thrown
          "unsupported experimentalChanges type: bogus")) := by
  constructor
  · exact (writeChangelogs_default_include (fun _ _ _ => Except.ok "X")
      { changelogFile := "CHANGELOG.md" } { stableVersion := "1.0.0" }
      { stableVersion := "1.1.0" } [] [] []).1 rfl
  · exact (writeChangelogs_default_include (fun _ _ _ => Except.ok "X")
      { changelogFile := "CHANGELOG.md",
        experimentalChangesTreatment := some "bogus" }
      { stableVersion := "1.0.0" } { stableVersion := "1.1.0" } [] [] []).2.1
      "bogus" rfl rfl (by decide) (by decide) (by decide)

/-- C2: the split point of an existing changelog is the first position
matching the release pattern - the pattern holds there and at no earlier
position; the preserved old content is exactly the suffix from that position
(everything before it discarded), or the whole content when no position
matches; and a successful non-dry-run call writes the preserved old content
immediately after the newly rendered section. -/
theorem changelog_split_point (s : List Char) :
    (∀ k, searchPattern s = some k →
      matchesAtPos s k = true ∧ (∀ j, j < k → matchesAtPos s j = false) ∧
        oldContentFrom s = s.drop k)
    ∧ (searchPattern s = none →
        (∀ j, matchesAtPos s j = false) ∧ oldContentFrom s = s)
    ∧ (∀ (render : Renderer) (args : ChangelogOptions) (cv nv : String)
        (commits : List ConventionalCommit) (fs : FileSystem) (content : String),
        args.dryRun = false →
        readFs fs args.changelogFile = some (⟨s⟩ : String) →
        render (mkRenderContext cv nv) (finalizeContext args) commits =
          Except.ok content →
        readFs (changelog render args cv nv commits fs).1 args.changelogFile =
          some (args.changeLogHeader ++ "\n" ++
            collapseTrailingNewlines (content ++ (⟨oldContentFrom s⟩ : String)))) := by
  refine ⟨?_, ?_, ?_⟩
  · intro k h
    obtain ⟨hk, hall⟩ := searchPattern_some h
    refine ⟨hk, hall, ?_⟩
    unfold oldContentFrom
    rw [h]
  · intro h
    refine ⟨searchPattern_none h, ?_⟩
    unfold oldContentFrom
    rw [h]
  · intro render args cv nv commits fs content hdry hread hr
    have hcreate : createChangelogIfMissing args fs = fs :=
      createChangelogIfMissing_existing args fs (by rw [hread]; rfl)
    rw [changelog_ok_write render args cv nv commits fs content hdry hr, hcreate,
      hread]
    simp only [Option.getD_some]
    rw [readFs_writeFs, if_pos rfl]
    rfl

/-- Witness for C2 at the concrete file of the claim: the split point of
`# Unreleased\n\n## [1.2.0] - 1\n` is index 14, the start of the
`## [1.2.0]` line, and the preserved old content is byte-for-byte the suffix
from that line. -/
theorem changelog_split_point_witness :
    searchPattern "# Unreleased\n\n## [1.2.0] - 1\n".data = some 14 ∧
    matchesAtPos "# Unreleased\n\n## [1.2.0] - 1\n".data 14 = true ∧
    oldContentFrom "# Unreleased\n\n## [1.2.0] - 1\n".data =
      "## [1.2.0] - 1\n".data := by
  have h := (changelog_split_point "# Unreleased\n\n## [1.2.0] - 1\n".data).1
    14 (by decide)
  exact ⟨by decide, h.1, h.2.2.trans (by decide)⟩

/-- C3 counterexample: the source collapses the trailing newlines of
`renderedText + oldContent` only, not of the whole concatenation, and the
written file does not always end with exactly one newline. With header `H`,
empty rendered text and old content `\n\n`, the file written is `H\n\n` -
two trailing newlines, and not the claimed collapse of the whole
concatenation (which would be `H\n`). -/
theorem changelog_trailing_newline_counterexample :
    readFs (changelog (fun _ _ _ => Except.ok "")
      { changelogFile := "CHANGELOG.md", changeLogHeader := "H" }
      "1.0.0" "1.1.0" [] [("CHANGELOG.md", "\n\n")]).1 "CHANGELOG.md" =
      some "H\n\n" ∧
    trailingNewlineCount "H\n\n" ≠ 1 ∧
    "H\n\n" ≠ collapseTrailingNewlines ("H" ++ "\n" ++ ("" ++ "\n\n")) := by
  refine ⟨by decide, by decide, by decide⟩

/-- C3 (amended): a successful non-dry-run `changelog` call writes exactly
`changeLogHeader + "\n" +` (the rendered text plus the preserved old content,
with any trailing run of newlines of that suffix collapsed to exactly one),
so whenever the rendered text plus old content ends with a newline and
contains a non-newline character, the written file ends with exactly one
trailing newline; the call resolves with the newly rendered text alone, and
the trailing-newline normalization is idempotent. -/
theorem changelog_write_format (render : Renderer) (args : ChangelogOptions)
    (cv nv : String) (commits : List ConventionalCommit) (fs : FileSystem)
    (existing content : String)
    (hdry : args.dryRun = false)
    (hread : readFs fs args.changelogFile = some existing)
    (hr : render (mkRenderContext cv nv) (finalizeContext args) commits =
      Except.ok content) :
    (readFs (changelog render args cv nv commits fs).1 args.changelogFile =
      some (args.changeLogHeader ++ "\n" ++
        collapseTrailingNewlines (content ++ oldContentOfStr existing)))
    ∧ (changelog render args cv nv commits fs).2 = Except.ok content
    ∧ ((content ++ oldContentOfStr existing).data.reverse.head? = some '\n' →
        (∃ c ∈ (content ++ oldContentOfStr existing).data, (c == '\n') = false) →
        trailingNewlineCount (args.changeLogHeader ++ "\n" ++
          collapseTrailingNewlines (content ++ oldContentOfStr existing)) = 1)
    ∧ (∀ t : String, collapseTrailingNewlines (collapseTrailingNewlines t) =
        collapseTrailingNewlines t) := by
  have hcreate : createChangelogIfMissing args fs = fs :=
    createChangelogIfMissing_existing args fs (by rw [hread]; rfl)
  have hw := changelog_ok_write render args cv nv commits fs content hdry hr
  rw [hcreate, hread] at hw
  simp only [Option.getD_some] at hw
  refine ⟨?_, ?_, ?_, ?_⟩
  · rw [hw]
    simp only
    rw [readFs_writeFs, if_pos rfl]
  · rw [hw]
  · intro h1 h2
    exact trailingNewlineCount_of_write args.changeLogHeader
      (content ++ oldContentOfStr existing) h1 h2
  · exact collapseTrailingNewlines_idem

/-- Witness for C3 at a concrete input: rendered text `new\n` over an
existing file `old\n`; the file written is `H\nnew\nold\n`, with exactly one
trailing newline, and the call resolves with `new\n`. -/
theorem changelog_write_format_witness :
    readFs (changelog (fun _ _ _ => Except.ok "new\n")
      { changelogFile := "CHANGELOG.md", changeLogHeader := "H" }
      "1.0.0" "1.1.0" [] [("CHANGELOG.md", "old\n")]).1 "CHANGELOG.md" =
      some "H\nnew\nold\n" ∧
    (changelog (fun _ _ _ => Except.ok "new\n")
      { changelogFile := "CHANGELOG.md", changeLogHeader := "H" }
      "1.0.0" "1.1.0" [] [("CHANGELOG.md", "old\n")]).2 = Except.ok "new\n" ∧
    trailingNewlineCount "H\nnew\nold\n" = 1 := by
  have h := changelog_write_format (fun _ _ _ => Except.ok "new\n")
    { changelogFile := "CHANGELOG.md", changeLogHeader := "H" }
    "1.0.0" "1.1.0" [] [("CHANGELOG.md", "old\n")] "old\n" "new\n"
    rfl (by decide) rfl
  refine ⟨?_, h.2.1, ?_⟩
  · rw [h.1]
    decide
  · have hc := h.2.2.1 (by decide) ⟨'n', by decide, by decide⟩
    have he : trailingNewlineCount ("H" ++ "\n" ++
        collapseTrailingNewlines ("new\n" ++ oldContentOfStr "old\n")) =
        trailingNewlineCount "H\nnew\nold\n" := by decide
    rw [← he]
    exact hc
